import Mathlib

/-!
Verification development for the ankiflow flashcard application.

The definitions below are a shallow embedding of the two source files:
* `script.js` — the `AppManager` façade: CSV/TSV import parser, backup
  export/import codec, and the playlist scheduler (`refreshPlaylist`,
  `shuffle`, `getNextItem`);
* the unnamed file holding `MemorizationDB` — the IndexedDB persistence
  layer (subjects / items / progress object stores and their operations).

JS strings are modelled as `String`, JS numbers occurring as ids, levels and
timestamps as `Nat`, missing (`undefined`) fields as `Option`, and each
IndexedDB transaction as an atomic state change that either commits in full
or leaves the store untouched.
-/

/-- Merged item view as produced by `getAllItemsWithProgress`
(`{id, subject_id, front, front_info, back, back_info, level, last_studied}`)
and consumed by the scheduler as `this.items`. -/
structure Merged where
  id : Nat
  subject_id : Nat
  front : String
  front_info : String
  back : String
  back_info : String
  level : Nat
  last_studied : Nat
deriving DecidableEq

/-- Scheduler state of `AppManager`: the fields of `this` read and written by
`refreshPlaylist` / `getNextItem`. -/
structure Sched where
  items : List Merged
  playlist : List Merged
  currentIndex : Nat
  isRandom : Bool
  targetLevels : List Nat
  sortMode : String
deriving DecidableEq

/-- Swap of the entries at positions `i` and `j` of a list; out-of-range
indices leave the list unchanged.  Models
`[array[currentIndex], array[randomIndex]] = [array[randomIndex], array[currentIndex]]`. -/
def swapL (l : List Merged) (i j : Nat) : List Merged :=
  match l[i]?, l[j]? with
  | some a, some b => (l.set i b).set j a
  | _, _ => l

/-- One pass of the Fisher–Yates loop in `AppManager.shuffle`, recursing on
`currentIndex`.  `rand n` stands for `Math.floor(Math.random() * n)`; taking
it `% n` keeps the draw in the JS-reachable range `[0, n-1]`. -/
def shuffleAux (rand : Nat → Nat) : List Merged → Nat → List Merged
  | l, 0 => l
  | l, m + 1 => shuffleAux rand (swapL l m (rand (m + 1) % (m + 1))) m

/-- `AppManager.shuffle(array)`: in-place Fisher–Yates shuffle, modelled on a
list with an explicit random supply. -/
def shuffle (rand : Nat → Nat) (l : List Merged) : List Merged :=
  shuffleAux rand l l.length

/-- Insertion of `a` into a sorted list, before the first element `b` with
`le a b` — so an element placed later keeps its position after equal
earlier ones. -/
def insertSorted (le : Merged → Merged → Bool) (a : Merged) :
    List Merged → List Merged
  | [] => [a]
  | b :: t => if le a b then a :: b :: t else b :: insertSorted le a t

/-- Stable ascending sort, modelling JS `Array.prototype.sort` with a
consistent numeric comparator (ties keep input order, as the spec
requires of the engine). -/
def jsSort (le : Merged → Merged → Bool) : List Merged → List Merged
  | [] => []
  | a :: t => insertSorted le a (jsSort le t)

/-- `AppManager.refreshPlaylist(activeLevels, mode)`.  It always records the
filter and mode; when no candidate survives the level filter it empties the
playlist and returns early — in particular `currentIndex` is then left
unchanged.  Non-random modes sort stably (JS `Array.prototype.sort`). -/
def refreshPlaylist (st : Sched) (activeLevels : List Nat) (mode : String)
    (rand : Nat → Nat) : Sched :=
  let st1 := { st with targetLevels := activeLevels, sortMode := mode }
  let candidates := st.items.filter (fun it => activeLevels.contains it.level)
  if candidates.length = 0 then
    { st1 with playlist := [] }
  else if mode = "random" then
    { st1 with isRandom := true, playlist := shuffle rand candidates,
               currentIndex := 0 }
  else if mode = "id_asc" then
    { st1 with isRandom := false,
               playlist := jsSort (fun a b => a.id ≤ b.id) candidates,
               currentIndex := 0 }
  else
    { st1 with isRandom := false,
               playlist := jsSort
                 (fun a b => a.last_studied ≤ b.last_studied) candidates,
               currentIndex := 0 }

/-- `AppManager.getNextItem()`: `none` on an empty playlist; at or past the
end the cursor wraps to 0 (reshuffling via `refreshPlaylist` when in random
mode); returns the element at the cursor and advances it. -/
def getNextItem (st : Sched) (rand : Nat → Nat) : Option Merged × Sched :=
  if st.playlist.length = 0 then (none, st)
  else
    let st1 :=
      if st.playlist.length ≤ st.currentIndex then
        let st' := { st with currentIndex := 0 }
        if st.isRandom then refreshPlaylist st' st.targetLevels st.sortMode rand
        else st'
      else st
    (st1.playlist[st1.currentIndex]?, { st1 with currentIndex := st1.currentIndex + 1 })

/-- Scheduler state after `k` successive `getNextItem` calls. -/
def stateAfter (rand : Nat → Nat) (st : Sched) : Nat → Sched
  | 0 => st
  | k + 1 => (getNextItem (stateAfter rand st k) rand).2

/-- Value returned by the `(k+1)`-th `getNextItem` call. -/
def outputAt (rand : Nat → Nat) (st : Sched) (k : Nat) : Option Merged :=
  (getNextItem (stateAfter rand st k) rand).1

/-- Values returned by `n` successive `getNextItem` calls, in order. -/
def nextOutputs (rand : Nat → Nat) : Sched → Nat → List (Option Merged)
  | _, 0 => []
  | st, n + 1 =>
    let r := getNextItem st rand
    r.1 :: nextOutputs rand r.2 n

/-- Record produced by `AppManager.parseCSV` for one input line:
`{front, front_info, back, back_info}`, all plain strings. -/
structure RawRecord where
  front : String
  front_info : String
  back : String
  back_info : String
deriving DecidableEq

/-- JS `String.prototype.split` with a one-character separator, on the
character-list model: `""` splits to `[""]`, adjacent separators yield empty
pieces. -/
def splitChar (sep : Char) : List Char → List (List Char)
  | [] => [[]]
  | c :: cs =>
    match splitChar sep cs with
    | [] => [[c]]
    | h :: t => if c = sep then [] :: h :: t else (c :: h) :: t

/-- JS `String.prototype.trim` on the character-list model (whitespace =
space, tab, CR, LF — the characters relevant to this input format). -/
def trimChars (cs : List Char) : List Char :=
  ((cs.dropWhile Char.isWhitespace).reverse.dropWhile Char.isWhitespace).reverse

/-- Character machine of the inner `parseLine` helper of `parseCSV`
(comma-delimited with quote awareness): a `"` toggles the in-quote flag,
`""` while in quote emits a literal `"`, a comma outside quotes ends the
field.  Accumulates the current field in reverse. -/
def parseLineAux : List Char → Bool → List Char → List (List Char) → List (List Char)
  | [], _, current, values => values ++ [current.reverse]
  | '"' :: '"' :: rest, true, current, values =>
    parseLineAux rest true ('"' :: current) values
  | '"' :: rest, inQuote, current, values =>
    parseLineAux rest (!inQuote) current values
  | c :: rest, inQuote, current, values =>
    if c = ',' && !inQuote then
      parseLineAux rest inQuote [] (values ++ [current.reverse])
    else
      parseLineAux rest inQuote (c :: current) values

/-- `parseLine(line, ',')` of `parseCSV`. -/
def parseLine (line : List Char) : List (List Char) :=
  parseLineAux line false [] []

/-- Per-field edge-quote stripping in `parseCSV`, the
`replace(/^"|"$/g, '')` step: one leading and one trailing `"` removed when
present. -/
def stripEdgeQuotes (cs : List Char) : List Char :=
  let s1 := match cs with
    | '"' :: rest => rest
    | _ => cs
  if s1.getLast? = some '"' then s1.dropLast else s1

/-- Left-to-right replacement of every `""` by `"`
(the `replace(/""/g, '"')` step). -/
def collapseQuotes : List Char → List Char
  | [] => []
  | '"' :: '"' :: rest => '"' :: collapseQuotes rest
  | c :: rest => c :: collapseQuotes rest

/-- Full cleanup applied to each raw field by `parseCSV`:
`p.trim().replace(/^"|"$/g, '').replace(/""/g, '"')`. -/
def cleanField (cs : List Char) : List Char :=
  collapseQuotes (stripEdgeQuotes (trimChars cs))

/-- Field-count → schema dispatch of `parseCSV` (the destructuring
assignments keyed on `parts.length`). -/
def mapParts (parts : List (List Char)) : RawRecord :=
  if 4 ≤ parts.length then
    ⟨⟨parts.getD 0 []⟩, ⟨parts.getD 1 []⟩, ⟨parts.getD 2 []⟩, ⟨parts.getD 3 []⟩⟩
  else if parts.length = 3 then
    ⟨⟨parts.getD 0 []⟩, ⟨parts.getD 2 []⟩, ⟨parts.getD 1 []⟩, ""⟩
  else if parts.length = 2 then
    ⟨⟨parts.getD 0 []⟩, "", ⟨parts.getD 1 []⟩, ""⟩
  else if parts.length = 1 then
    ⟨⟨parts.getD 0 []⟩, "", "", ""⟩
  else
    ⟨"", "", "", ""⟩

/-- A record is kept only if front or back is non-empty (JS truthiness of
the two strings). -/
def keepRecord (r : RawRecord) : Bool :=
  !(r.front == "") || !(r.back == "")

/-- Processing of one trimmed, non-blank line in `parseCSV`: delimiter
detection (tab wins, simple split; otherwise quoted-comma parse), per-field
cleanup, count-based mapping, and the keep test. -/
def parseCSVLine (line : List Char) : Option RawRecord :=
  let parts :=
    (if line.contains '\t' then splitChar '\t' line else parseLine line).map
      cleanField
  if 0 < parts.length then
    let r := mapParts parts
    if keepRecord r then some r else none
  else none

/-- Split on `/\r?\n/`: split on LF, dropping the CR left at the end of a
piece by a CRLF ending. -/
def splitLines (text : List Char) : List (List Char) :=
  (splitChar '\n' text).map
    (fun cs => if cs.getLast? = some '\r' then cs.dropLast else cs)

/-- `AppManager.parseCSV(text)`: lines split on `/\r?\n/`, trimmed, blank
lines skipped, each remaining line parsed by `parseCSVLine`. -/
def parseCSV (text : String) : List RawRecord :=
  (splitLines text.data).filterMap
    (fun l => let t := trimChars l; if t = [] then none else parseCSVLine t)

/-- Per-subject audio settings (`{frontLang, backLang}`). -/
structure Settings where
  frontLang : String
  backLang : String
deriving DecidableEq

/-- Row of the `subjects` object store (keyPath `id`, autoIncrement). -/
structure Subject where
  id : Nat
  name : String
  settings : Settings
  created_at : Nat
deriving DecidableEq

/-- Row of the `items` object store (keyPath `id`, autoIncrement; index on
`subject_id`). -/
structure Item where
  id : Nat
  subject_id : Nat
  front : String
  front_info : String
  back : String
  back_info : String
  created_at : Nat
deriving DecidableEq

/-- Row of the `progress` object store (keyPath `item_id`). -/
structure ProgressRow where
  item_id : Nat
  level : Nat
  last_studied : Nat
deriving DecidableEq

/-- State of one `MemorizationDB` store: the three collections plus the
autoIncrement key generators. -/
structure DB where
  subjects : List Subject
  items : List Item
  progress : List ProgressRow
  nextSubjectId : Nat
  nextItemId : Nat
deriving DecidableEq

/-- Record handed to `importItems`: from the CSV parser all four text fields
are present and `level` is absent; from a backup document `id`, `level` and
`last_studied` are present.  `Option` models `undefined`. -/
structure ImportRecord where
  id : Option Nat
  front : String
  front_info : Option String
  back : String
  back_info : Option String
  level : Option Nat
  last_studied : Option Nat
deriving DecidableEq

/-- Key-generator sanity of a store: every row key is below the
autoIncrement counter that will assign the next key.  Holds for every store
IndexedDB itself can produce and is preserved by every operation here. -/
def WF (db : DB) : Prop :=
  (∀ s ∈ db.subjects, s.id < db.nextSubjectId) ∧
  (∀ it ∈ db.items, it.id < db.nextItemId) ∧
  (∀ p ∈ db.progress, p.item_id < db.nextItemId)

instance : DecidablePred WF := fun db => by
  unfold WF; infer_instance

/-- `MemorizationDB.createSubject(name, settings)`: adds a fresh-keyed row
and resolves with the new id.  `now` stands for `Date.now()`. -/
def createSubject (db : DB) (name : String) (settings : Settings)
    (now : Nat) : DB × Nat :=
  ({ db with
      subjects := db.subjects ++ [⟨db.nextSubjectId, name, settings, now⟩],
      nextSubjectId := db.nextSubjectId + 1 },
    db.nextSubjectId)

/-- `MemorizationDB.deleteSubject(id)`: one readwrite transaction deleting
the subject row, every item key found under the `subject_id` index, and the
progress row of each such key. -/
def deleteSubject (db : DB) (id : Nat) : DB :=
  let itemIds :=
    (db.items.filter (fun it => it.subject_id == id)).map Item.id
  { db with
      subjects := db.subjects.filter (fun s => !(s.id == id)),
      items := db.items.filter (fun it => !(itemIds.contains it.id)),
      progress := db.progress.filter (fun p => !(itemIds.contains p.item_id)) }

/-- `MemorizationDB.clearItemsBySubject(subjectId)`: one readwrite
transaction deleting every item of the subject and its progress row. -/
def clearItemsBySubject (db : DB) (subjectId : Nat) : DB :=
  let itemIds :=
    (db.items.filter (fun it => it.subject_id == subjectId)).map Item.id
  { db with
      items := db.items.filter (fun it => !(itemIds.contains it.id)),
      progress := db.progress.filter (fun p => !(itemIds.contains p.item_id)) }

/-- Effect of one record inside the `importItems` transaction: `add` of an
item under a fresh autoIncrement key (any `id` the record carries is
ignored), then `add` of the paired progress row — `{level, last_studied||0}`
when the record carries a `level`, `{0, 0}` otherwise. -/
def addRecord (subjectId : Nat) (now : Nat) (db : DB) (r : ImportRecord) : DB :=
  let nid := db.nextItemId
  { db with
      items := db.items ++
        [⟨nid, subjectId, r.front, r.front_info.getD "", r.back,
          r.back_info.getD "", now⟩],
      progress := db.progress ++
        [match r.level with
         | some lv => ⟨nid, lv, r.last_studied.getD 0⟩
         | none => ⟨nid, 0, 0⟩],
      nextItemId := nid + 1 }

/-- Committed effect of the single readwrite transaction of
`importItems` over `items` and `progress`: every record added in order. -/
def importItemsBatch (db : DB) (subjectId : Nat) (rs : List ImportRecord)
    (now : Nat) : DB :=
  rs.foldl (addRecord subjectId now) db

/-- `MemorizationDB.importItems(subjectId, items, clearExisting)`.  When
`clearExisting` is set it first awaits `clearItemsBySubject` — a separate,
independently committing transaction — and only then opens the transaction
that adds the batch.  `clearOk` / `addOk` say whether each of the two
IndexedDB transactions commits; an aborted transaction leaves the store
unchanged and rejects the promise (`false`). -/
def importItems (db : DB) (subjectId : Nat) (rs : List ImportRecord)
    (clearExisting : Bool) (now : Nat) (clearOk addOk : Bool) : DB × Bool :=
  if clearExisting then
    if clearOk then
      let db1 := clearItemsBySubject db subjectId
      if addOk then (importItemsBatch db1 subjectId rs now, true)
      else (db1, false)
    else (db, false)
  else
    if addOk then (importItemsBatch db subjectId rs now, true)
    else (db, false)

/-- `MemorizationDB.getAllItemsWithProgress(subjectId)`: items of the
subject left-joined against the progress map by item id; a missing progress
row contributes `{level: 0, last_studied: 0}`. -/
def getAllItemsWithProgress (db : DB) (subjectId : Nat) : List Merged :=
  (db.items.filter (fun it => it.subject_id == subjectId)).map
    (fun it =>
      match db.progress.find? (fun p => p.item_id == it.id) with
      | some p =>
        ⟨it.id, it.subject_id, it.front, it.front_info, it.back, it.back_info,
          p.level, p.last_studied⟩
      | none =>
        ⟨it.id, it.subject_id, it.front, it.front_info, it.back, it.back_info,
          0, 0⟩)

/-- Fields of the object handed to `MemorizationDB.updateItem`. -/
structure ItemPatch where
  id : Nat
  front : String
  front_info : String
  back : String
  back_info : String
deriving DecidableEq

/-- Replacement of the row with key `row.id` (IndexedDB `put` on an
existing key). -/
def putById (items : List Item) (row : Item) : List Item :=
  items.map (fun x => if x.id == row.id then row else x)

/-- `MemorizationDB.updateItem(item)`: fetches the row with key `item.id`;
when present, overwrites exactly the four text fields and puts it back; when
absent, does nothing.  The transaction completes and resolves `true` either
way. -/
def updateItem (db : DB) (it : ItemPatch) : DB × Bool :=
  match db.items.find? (fun x => x.id == it.id) with
  | none => (db, true)
  | some ex =>
    (( { db with
          items := putById db.items
            { ex with front := it.front, front_info := it.front_info,
                      back := it.back, back_info := it.back_info } }),
      true)

/-- `MemorizationDB.deleteItem(itemId)`: one transaction deleting the item
row and the progress row under the same key; resolves `true`. -/
def deleteItem (db : DB) (itemId : Nat) : DB × Bool :=
  ({ db with
      items := db.items.filter (fun it => !(it.id == itemId)),
      progress := db.progress.filter (fun p => !(p.item_id == itemId)) },
    true)

/-- Subject part of a backup document (`{name, settings}`). -/
structure BackupSubject where
  name : String
  settings : Settings
deriving DecidableEq

/-- Backup document produced by `exportSubjectBackup`:
`{version, subject, items}` with the merged item views as items. -/
structure Backup where
  version : Nat
  subject : BackupSubject
  items : List Merged
deriving DecidableEq

/-- `AppManager.exportSubjectBackup()`: the versioned document built from
the current subject and its loaded merged items. -/
def exportSubjectBackup (subject : Subject) (items : List Merged) : Backup :=
  ⟨1, ⟨subject.name, subject.settings⟩, items⟩

/-- View of a backup item as an `importItems` record: all stored fields
present, so `level` is carried (`item.level !== undefined`). -/
def mergedToRecord (m : Merged) : ImportRecord :=
  ⟨some m.id, m.front, some m.front_info, m.back, some m.back_info,
    some m.level, some m.last_studied⟩

/-- `AppManager.importSubjectBackup` on a well-formed document, committed
path: creates a subject named `name + " (Imported)"` under a fresh id, then
`importItems(newId, backup.items, clearExisting = true)`. -/
def importSubjectBackup (db : DB) (b : Backup) (now : Nat) : DB × Nat :=
  let r := createSubject db (b.subject.name ++ " (Imported)") b.subject.settings now
  let db2 := clearItemsBySubject r.1 r.2
  (importItemsBatch db2 r.2 (b.items.map mergedToRecord) now, r.2)

def mA : Merged := ⟨1, 1, "a", "", "b", "", 3, 0⟩

def stC2 : Sched := ⟨[mA], [mA], 2, false, [0, 1, 2], "random"⟩

def rand0 : Nat → Nat := fun _ => 0

def m1 : Merged := ⟨1, 1, "f1", "", "b1", "", 0, 0⟩

def m2 : Merged := ⟨2, 1, "f2", "", "b2", "", 1, 10⟩

def m3 : Merged := ⟨3, 1, "f3", "", "b3", "", 2, 20⟩

def stC5 : Sched := ⟨[m1, m2, m3], [], 0, false, [], "x"⟩

def dbC3 : DB :=
  ⟨[⟨1, "S", ⟨"en-US", "ja-JP"⟩, 0⟩], [⟨10, 1, "old", "", "o", "", 0⟩],
    [⟨10, 0, 0⟩], 2, 11⟩

def recC3 : ImportRecord := ⟨none, "new", none, "n", none, none, none⟩

def progressOfRecord (nid : Nat) (r : ImportRecord) : ProgressRow :=
  match r.level with
  | some lv => ⟨nid, lv, r.last_studied.getD 0⟩
  | none => ⟨nid, 0, 0⟩

def mergedOfRecord (nid sid : Nat) (r : ImportRecord) : Merged :=
  ⟨nid, sid, r.front, r.front_info.getD "", r.back, r.back_info.getD "",
    (progressOfRecord nid r).level, (progressOfRecord nid r).last_studied⟩

def mergedOfBatch (nid sid : Nat) : List ImportRecord → List Merged
  | [] => []
  | r :: rs => mergedOfRecord nid sid r :: mergedOfBatch (nid + 1) sid rs

def dbC1 : DB :=
  ⟨[⟨1, "A", ⟨"en-US", "ja-JP"⟩, 0⟩, ⟨2, "B", ⟨"en-US", "ja-JP"⟩, 0⟩],
    [⟨10, 1, "f", "", "b", "", 0⟩, ⟨20, 2, "g", "", "c", "", 0⟩],
    [⟨10, 0, 0⟩, ⟨20, 1, 5⟩], 3, 21⟩

def stC2b : Sched := ⟨[mA], [], 7, true, [], "z"⟩

def dbC6 : DB := ⟨[], [], [], 1, 1⟩

def subjC6 : Subject := ⟨1, "S", ⟨"en-US", "ja-JP"⟩, 0⟩

def msC6 : List Merged := [⟨10, 1, "A", "", "B", "", 2, 100⟩]

def dbC7 : DB := ⟨[], [⟨3, 1, "x", "", "y", "", 0⟩], [⟨3, 2, 9⟩], 1, 4⟩

def recC7 : ImportRecord := ⟨some 99, "A", none, "B", none, some 2, some 100⟩

def dbC8 : DB := ⟨[], [⟨5, 1, "f", "fi", "b", "bi", 0⟩], [], 1, 6⟩

def dbC10 : DB := ⟨[], [⟨4, 1, "f", "", "b", "", 0⟩], [⟨4, 1, 2⟩], 1, 5⟩

def randC9 : Nat → Nat := fun n => n + 1

def stC9 : Sched := ⟨[m1, m2, m3], [], 5, false, [9], "y"⟩

theorem cons_set_perm (t : List Merged) :
    ∀ (m : Nat) (h : m < t.length) (x : Merged),
      List.Perm (t[m] :: t.set m x) (x :: t) := by
  induction t with
  | nil => intro m h; simp at h
  | cons b t ih =>
    intro m h x
    cases m with
    | zero => simpa using List.Perm.swap x b t
    | succ m =>
      have hm : m < t.length := by simpa using h
      have s1 : List.Perm (t[m] :: b :: t.set m x) (b :: t[m] :: t.set m x) :=
        List.Perm.swap b (t[m]) (t.set m x)
      have s2 : List.Perm (b :: t[m] :: t.set m x) (b :: x :: t) :=
        List.Perm.cons b (ih m hm x)
      have s3 : List.Perm (b :: x :: t) (x :: b :: t) := List.Perm.swap x b t
      simpa using (s1.trans s2).trans s3

theorem set_set_perm :
    ∀ (l : List Merged) (i j : Nat) (hi : i < l.length) (hj : j < l.length),
      List.Perm ((l.set i l[j]).set j l[i]) l := by
  intro l
  induction l with
  | nil => intro i j hi; simp at hi
  | cons c t ih =>
    intro i j hi hj
    cases i with
    | zero =>
      cases j with
      | zero => simp
      | succ j =>
        have hj' : j < t.length := by simpa using hj
        simpa using cons_set_perm t j hj' c
    | succ i =>
      have hi' : i < t.length := by simpa using hi
      cases j with
      | zero =>
        simpa using cons_set_perm t i hi' c
      | succ j =>
        have hj' : j < t.length := by simpa using hj
        simpa using List.Perm.cons c (ih i j hi' hj')

theorem swapL_perm (l : List Merged) (i j : Nat) : List.Perm (swapL l i j) l := by
  unfold swapL
  cases hi : l[i]? with
  | none => exact List.Perm.refl l
  | some a =>
    cases hj : l[j]? with
    | none => exact List.Perm.refl l
    | some b =>
      obtain ⟨hil, ha⟩ := List.getElem?_eq_some_iff.mp hi
      obtain ⟨hjl, hb⟩ := List.getElem?_eq_some_iff.mp hj
      subst ha; subst hb
      exact set_set_perm l i j hil hjl

theorem shuffleAux_perm (rand : Nat → Nat) :
    ∀ (m : Nat) (l : List Merged), List.Perm (shuffleAux rand l m) l := by
  intro m
  induction m with
  | zero => intro l; exact List.Perm.refl l
  | succ m ih =>
    intro l
    exact (ih _).trans (swapL_perm l m (rand (m + 1) % (m + 1)))

theorem shuffle_perm (rand : Nat → Nat) (l : List Merged) :
    List.Perm (shuffle rand l) l :=
  shuffleAux_perm rand l.length l

/-- Claim C1: after `deleteSubject id` completes, the subject row is gone,
no item with `subject_id = id` remains, and no progress row keyed by any
such item of the prior state remains — the cascade leaves no orphans, for
any prior population. -/
theorem deleteSubject_cascades (db : DB) (id : Nat) :
    (∀ s ∈ (deleteSubject db id).subjects, s.id ≠ id) ∧
    (∀ it ∈ (deleteSubject db id).items, it.subject_id ≠ id) ∧
    (∀ it ∈ db.items, it.subject_id = id →
      ∀ p ∈ (deleteSubject db id).progress, p.item_id ≠ it.id) := by
  refine ⟨?_, ?_, ?_⟩
  · intro s hs
    simp only [deleteSubject, List.mem_filter] at hs
    simpa using hs.2
  · intro it hit
    simp only [deleteSubject, List.mem_filter] at hit
    intro hsub
    have := hit.2
    simp [List.contains] at this
    exact this it hit.1 hsub rfl
  · intro it hit hsub p hp
    simp only [deleteSubject, List.mem_filter] at hp
    intro heq
    have := hp.2
    simp [List.contains] at this
    exact this it hit hsub heq.symm

/-- Claim C10: `deleteItem` always resolves `true`; when no stored item has
the given id (and referential integrity holds, so no progress row does
either) both collections are left unchanged — absence is never surfaced as
an error. -/
theorem deleteItem_missing_id (db : DB) (itemId : Nat) :
    (deleteItem db itemId).2 = true ∧
    ((∀ p ∈ db.progress, ∃ it ∈ db.items, p.item_id = it.id) →
      (∀ it ∈ db.items, it.id ≠ itemId) →
      deleteItem db itemId = (db, true)) := by
  constructor
  · rfl
  · intro hfk hno
    have hi : db.items.filter (fun it => !(it.id == itemId)) = db.items :=
      List.filter_eq_self.mpr (fun a ha => by simp [hno a ha])
    have hp : db.progress.filter (fun p => !(p.item_id == itemId)) = db.progress := by
      refine List.filter_eq_self.mpr (fun p hpm => ?_)
      obtain ⟨it, hit, heq⟩ := hfk p hpm
      simp [heq, hno it hit]
    simp [deleteItem, hi, hp]

/-- Claim C8: `updateItem` on an id matching no stored item resolves `true`
and leaves the store unchanged (no NotFound); on a matching id exactly the
four text fields of that item are replaced. -/
theorem updateItem_semantics (db : DB) (it : ItemPatch) :
    ((∀ x ∈ db.items, x.id ≠ it.id) → updateItem db it = (db, true)) ∧
    ((db.items.map Item.id).Nodup → ∀ ex ∈ db.items, ex.id = it.id →
      updateItem db it =
        ({ db with items := db.items.map (fun x =>
            if x.id = it.id then
              { x with front := it.front, front_info := it.front_info,
                       back := it.back, back_info := it.back_info }
            else x) }, true)) := by
  constructor
  · intro h
    have hfind : db.items.find? (fun x => x.id == it.id) = none :=
      List.find?_eq_none.mpr (fun x hx => by simp [h x hx])
    simp [updateItem, hfind]
  · intro hnd ex hex hid
    cases hfind : db.items.find? (fun x => x.id == it.id) with
    | none =>
      exfalso
      exact absurd (by simpa using hid) (List.find?_eq_none.mp hfind ex hex)
    | some ex0 =>
      have hex0 : ex0 ∈ db.items := List.mem_of_find?_eq_some hfind
      have hid0 : ex0.id = it.id := by simpa using List.find?_some hfind
      simp only [updateItem, hfind]
      refine Prod.ext ?_ rfl
      simp only
      congr 1
      unfold putById
      refine List.map_congr_left (fun x hx => ?_)
      by_cases hxi : x.id = it.id
      · have hxe : x = ex0 :=
          List.inj_on_of_nodup_map hnd hx hex0 (by rw [hxi, hid0])
      -- in the replaced branch the stored row is the fetched row with the
      -- four text fields overwritten
        subst hxe
        simp [hxi, hid0]
      · simp [hxi, hid0]

/-- Claim C2, amended: `refreshPlaylist` resets the cursor to 0 whenever at
least one item level is in `activeLevels`; when none is, the playlist
becomes empty and the cursor keeps its previous value. -/
theorem refreshPlaylist_cursor (st : Sched) (levels : List Nat) (mode : String)
    (rand : Nat → Nat) :
    (st.items.filter (fun it => levels.contains it.level) = [] →
      (refreshPlaylist st levels mode rand).playlist = [] ∧
      (refreshPlaylist st levels mode rand).currentIndex = st.currentIndex) ∧
    (st.items.filter (fun it => levels.contains it.level) ≠ [] →
      (refreshPlaylist st levels mode rand).currentIndex = 0) := by
  constructor
  · intro h
    have hc : (st.items.filter (fun it => levels.contains it.level)).length = 0 := by
      rw [h]; rfl
    simp only [refreshPlaylist]
    rw [if_pos hc]
    exact ⟨rfl, rfl⟩
  · intro h
    have hc : ¬ (st.items.filter (fun it => levels.contains it.level)).length = 0 := by
      intro h0
      exact h (List.length_eq_zero.mp h0)
    simp only [refreshPlaylist]
    rw [if_neg hc]
    by_cases h1 : mode = "random"
    · rw [if_pos h1]
    · rw [if_neg h1]
      by_cases h2 : mode = "id_asc"
      · rw [if_pos h2]
      · rw [if_neg h2]

/-- Claim C2, counterexample: with a cursor at 2 and no item level in the
active set, `refreshPlaylist` empties the playlist but leaves the cursor at
2 — refuting that every refresh resets the cursor to 0. -/
theorem refresh_empty_keeps_cursor :
    (refreshPlaylist stC2 [0] "id_asc" rand0).playlist = [] ∧
    ¬ (refreshPlaylist stC2 [0] "id_asc" rand0).currentIndex = 0 := by
  decide

theorem succ_mod_formula (k N : Nat) (hN : 0 < N) :
    (k + 1) % N = if k % N + 1 < N then k % N + 1 else 0 := by
  have hk : k % N < N := Nat.mod_lt _ hN
  by_cases h : k % N + 1 < N
  · rw [if_pos h]
    conv_lhs => rw [← Nat.mod_add_div k N]
    rw [Nat.add_right_comm, Nat.add_mul_mod_self_left]
    exact Nat.mod_eq_of_lt h
  · rw [if_neg h]
    have hEq : k % N + 1 = N := by omega
    conv_lhs => rw [← Nat.mod_add_div k N]
    rw [Nat.add_right_comm, Nat.add_mul_mod_self_left, hEq, Nat.mod_self]

theorem stateAfter_nonrandom (rand : Nat → Nat) (st : Sched)
    (hR : st.isRandom = false) (hC : st.currentIndex = 0)
    (hP : st.playlist ≠ []) :
    ∀ k, stateAfter rand st (k + 1) =
      { st with currentIndex := k % st.playlist.length + 1 } := by
  have hN : 0 < st.playlist.length := List.length_pos.mpr hP
  intro k
  induction k with
  | zero =>
    show (getNextItem st rand).2 = _
    unfold getNextItem
    rw [if_neg (by omega)]
    simp only [if_neg (by omega : ¬ st.playlist.length ≤ st.currentIndex)]
    rw [hC]
    simp [Nat.zero_mod]
  | succ k ih =>
    show (getNextItem (stateAfter rand st (k + 1)) rand).2 = _
    rw [ih]
    unfold getNextItem
    simp only
    rw [succ_mod_formula k st.playlist.length hN]
    have hk : k % st.playlist.length < st.playlist.length := Nat.mod_lt _ hN
    by_cases h : k % st.playlist.length + 1 < st.playlist.length
    · rw [if_neg (by omega), if_neg (by omega), if_pos h]
    · have hEq : k % st.playlist.length + 1 = st.playlist.length := by omega
      rw [if_neg (by omega), if_pos (by omega), if_neg (by simp [hR]), if_neg (by omega)]

theorem outputAt_nonrandom (rand : Nat → Nat) (st : Sched)
    (hR : st.isRandom = false) (hC : st.currentIndex = 0)
    (hP : st.playlist ≠ []) :
    ∀ k, outputAt rand st k = st.playlist[k % st.playlist.length]? := by
  have hN : 0 < st.playlist.length := List.length_pos.mpr hP
  intro k
  cases k with
  | zero =>
    show (getNextItem st rand).1 = _
    unfold getNextItem
    rw [if_neg (by omega)]
    simp only [if_neg (by omega : ¬ st.playlist.length ≤ st.currentIndex)]
    rw [hC]
    simp [Nat.zero_mod]
  | succ k =>
    show (getNextItem (stateAfter rand st (k + 1)) rand).1 = _
    rw [stateAfter_nonrandom rand st hR hC hP k]
    unfold getNextItem
    simp only
    rw [succ_mod_formula k st.playlist.length hN]
    have hk : k % st.playlist.length < st.playlist.length := Nat.mod_lt _ hN
    by_cases h : k % st.playlist.length + 1 < st.playlist.length
    · rw [if_neg (by omega), if_neg (by omega), if_pos h]
    · rw [if_neg (by omega), if_pos (by omega), if_neg (by simp [hR]), if_neg (by omega)]

theorem refresh_nonrandom_fields (st : Sched) (levels : List Nat)
    (mode : String) (rand : Nat → Nat) (hmode : mode ≠ "random")
    (hne : (refreshPlaylist st levels mode rand).playlist ≠ []) :
    (refreshPlaylist st levels mode rand).isRandom = false ∧
    (refreshPlaylist st levels mode rand).currentIndex = 0 := by
  by_cases hc : (st.items.filter (fun it => levels.contains it.level)).length = 0
  · exfalso
    apply hne
    simp only [refreshPlaylist]
    rw [if_pos hc]
  · simp only [refreshPlaylist]
    rw [if_neg hc, if_neg hmode]
    by_cases h2 : mode = "id_asc"
    · rw [if_pos h2]
      exact ⟨rfl, rfl⟩
    · rw [if_neg h2]
      exact ⟨rfl, rfl⟩

/-- Claim C5: after a refresh in any non-random mode producing a non-empty
playlist, the `(k+1)`-th `getNextItem` call returns playlist entry
`k mod N` — the cursor wraps to 0 at the end and the same fixed order
repeats identically forever. -/
theorem nonrandom_wrap_repeats (st : Sched) (levels : List Nat) (mode : String)
    (rand rand2 : Nat → Nat) (hmode : mode ≠ "random")
    (hne : (refreshPlaylist st levels mode rand).playlist ≠ []) (k : Nat) :
    outputAt rand2 (refreshPlaylist st levels mode rand) k =
      (refreshPlaylist st levels mode rand).playlist[
        k % (refreshPlaylist st levels mode rand).playlist.length]? := by
  obtain ⟨h1, h2⟩ := refresh_nonrandom_fields st levels mode rand hmode hne
  exact outputAt_nonrandom rand2 _ h1 h2 hne k

/-- Witness for claim C5: ids 1, 2, 3 in mode id_asc; four calls return
1, 2, 3, 1. -/
theorem nonrandom_wrap_repeats_w :
    ("id_asc" ≠ "random") ∧
    (refreshPlaylist stC5 [0, 1, 2] "id_asc" rand0).playlist ≠ [] ∧
    nextOutputs rand0 (refreshPlaylist stC5 [0, 1, 2] "id_asc" rand0) 4 =
      [some m1, some m2, some m3, some m1] ∧
    outputAt rand0 (refreshPlaylist stC5 [0, 1, 2] "id_asc" rand0) 3 = some m1 := by
  refine ⟨by decide, by decide, by decide, ?_⟩
  have h := nonrandom_wrap_repeats stC5 [0, 1, 2] "id_asc" rand0 rand0
    (by decide) (by decide) 3
  rw [h]
  decide

theorem nextOutputs_pass (rand : Nat → Nat) :
    ∀ (k : Nat) (st : Sched), st.playlist ≠ [] →
      st.currentIndex + k ≤ st.playlist.length →
      nextOutputs rand st k =
        ((st.playlist.drop st.currentIndex).take k).map some := by
  intro k
  induction k with
  | zero => intro st h1 h2; simp [nextOutputs]
  | succ k ih =>
    intro st h1 h2
    have hN : 0 < st.playlist.length := List.length_pos.mpr h1
    have hc : st.currentIndex < st.playlist.length := by omega
    simp only [nextOutputs]
    unfold getNextItem
    rw [if_neg (by omega)]
    simp only [if_neg (by omega : ¬ st.playlist.length ≤ st.currentIndex)]
    rw [ih { st with currentIndex := st.currentIndex + 1 } (by simpa using h1)
      (by simpa using by omega : ({ st with currentIndex := st.currentIndex + 1 } : Sched).currentIndex + k ≤ st.playlist.length)]
    rw [List.getElem?_eq_getElem hc, List.drop_eq_getElem_cons hc,
      List.take_succ_cons, List.map_cons]

/-- Claim C9: in random mode the playlist built by `refreshPlaylist` is a
permutation of the level-filtered candidates, and over one full pass of N
`getNextItem` calls (before any wrap/reshuffle) each candidate id appears
exactly once, provided candidate ids are distinct. -/
theorem random_mode_permutation (st : Sched) (levels : List Nat)
    (rand rand2 : Nat → Nat) :
    List.Perm (refreshPlaylist st levels "random" rand).playlist
      (st.items.filter (fun it => levels.contains it.level)) ∧
    (st.items.filter (fun it => levels.contains it.level) ≠ [] →
      nextOutputs rand2 (refreshPlaylist st levels "random" rand)
          (st.items.filter (fun it => levels.contains it.level)).length
        = (refreshPlaylist st levels "random" rand).playlist.map some ∧
      (((st.items.filter (fun it => levels.contains it.level)).map Merged.id).Nodup →
        ∀ i ∈ (st.items.filter (fun it => levels.contains it.level)).map Merged.id,
          ((nextOutputs rand2 (refreshPlaylist st levels "random" rand)
              (st.items.filter (fun it => levels.contains it.level)).length).filterMap
            (fun o => Option.map Merged.id o)).count i = 1)) := by
  by_cases hc : (st.items.filter (fun it => levels.contains it.level)).length = 0
  · have hnil : st.items.filter (fun it => levels.contains it.level) = [] :=
      List.length_eq_zero.mp hc
    constructor
    · simp only [refreshPlaylist]
      rw [if_pos hc, hnil]
    · intro hne
      exact absurd hnil hne
  · have hplay : (refreshPlaylist st levels "random" rand).playlist =
        shuffle rand (st.items.filter (fun it => levels.contains it.level)) := by
      simp only [refreshPlaylist]
      rw [if_neg hc, if_pos trivial]
    have hcur : (refreshPlaylist st levels "random" rand).currentIndex = 0 := by
      simp only [refreshPlaylist]
      rw [if_neg hc, if_pos trivial]
    have hperm : List.Perm (refreshPlaylist st levels "random" rand).playlist
        (st.items.filter (fun it => levels.contains it.level)) := by
      rw [hplay]
      exact shuffle_perm rand _
    refine ⟨hperm, fun hne => ?_⟩
    have hlen : (refreshPlaylist st levels "random" rand).playlist.length =
        (st.items.filter (fun it => levels.contains it.level)).length :=
      hperm.length_eq
    have hne' : (refreshPlaylist st levels "random" rand).playlist ≠ [] := by
      intro h0
      rw [h0] at hlen
      exact hc hlen.symm
    have hpass := nextOutputs_pass rand2
      (st.items.filter (fun it => levels.contains it.level)).length
      (refreshPlaylist st levels "random" rand) hne' (by rw [hcur, hlen]; omega)
    rw [hcur] at hpass
    rw [List.drop_zero, ← hlen, List.take_length, hlen] at hpass
    refine ⟨hpass, fun hnd i hi => ?_⟩
    rw [hpass]
    have hmapeq : ((refreshPlaylist st levels "random" rand).playlist.map some).filterMap
        (fun o => Option.map Merged.id o)
        = (refreshPlaylist st levels "random" rand).playlist.map Merged.id := by
      rw [List.filterMap_map]
      have : ((fun o => Option.map Merged.id o) ∘ some) = some ∘ Merged.id := rfl
      rw [this, List.filterMap_eq_map]
    rw [hmapeq]
    rw [(hperm.map Merged.id).count_eq i]
    exact List.count_eq_one_of_mem hnd hi

theorem importItemsBatch_subject_count :
    ∀ (rs : List ImportRecord) (db : DB) (sid now : Nat),
      ((importItemsBatch db sid rs now).items.filter
          (fun it => it.subject_id == sid)).length
        = (db.items.filter (fun it => it.subject_id == sid)).length + rs.length := by
  intro rs
  induction rs with
  | nil => intro db sid now; simp [importItemsBatch]
  | cons r rs ih =>
    intro db sid now
    show ((importItemsBatch (addRecord sid now db r) sid rs now).items.filter
        (fun it => it.subject_id == sid)).length = _
    rw [ih]
    simp only [addRecord, List.filter_append, List.length_append]
    simp
    omega

theorem clearItemsBySubject_empty (db : DB) (sid : Nat) :
    (clearItemsBySubject db sid).items.filter (fun it => it.subject_id == sid)
      = [] := by
  simp only [clearItemsBySubject]
  rw [List.filter_eq_nil_iff]
  intro a ha
  rw [List.mem_filter] at ha
  intro hsub
  have hfil : a.id ∈ (db.items.filter (fun x => x.subject_id == sid)).map Item.id := by
    exact List.mem_map_of_mem Item.id
      (List.mem_filter.mpr ⟨ha.1, hsub⟩)
  have := ha.2
  simp [List.contains] at this
  rw [List.mem_map] at hfil
  obtain ⟨x, hx, hxid⟩ := hfil
  rw [List.mem_filter] at hx
  exact this x hx.1 (by simpa using hx.2) hxid

/-- Claim C3, amended: `importItems` with `clearExisting` runs two
transactions.  When both commit, the subject holds exactly the new batch;
when the insert transaction fails after the clear committed, the call
rejects and the subject is left with zero items (old rows cleared, new
batch absent); when the clear fails, the store is untouched. -/
theorem importItems_two_transactions (db : DB) (sid : Nat)
    (rs : List ImportRecord) (now : Nat) (ok : Bool) :
    (((importItems db sid rs true now true true).1.items.filter
        (fun it => it.subject_id == sid)).length = rs.length ∧
      (importItems db sid rs true now true true).2 = true) ∧
    (importItems db sid rs true now true false
        = (clearItemsBySubject db sid, false) ∧
      ((clearItemsBySubject db sid).items.filter
        (fun it => it.subject_id == sid)).length = 0) ∧
    importItems db sid rs true now false ok = (db, false) := by
  refine ⟨⟨?_, rfl⟩, ⟨rfl, ?_⟩, rfl⟩
  · show ((importItemsBatch (clearItemsBySubject db sid) sid rs now).items.filter
        (fun it => it.subject_id == sid)).length = rs.length
    rw [importItemsBatch_subject_count, clearItemsBySubject_empty]
    simp
  · rw [clearItemsBySubject_empty]
    rfl

/-- Claim C3, counterexample: with `clearExisting` set, when the clearing
transaction commits and the insert transaction then fails, the store is
left in a state that is neither the initial one nor the fully committed
one — refuting that `importItems` is a single all-or-nothing
transaction. -/
theorem importItems_not_atomic :
    (importItems dbC3 1 [recC3] true 5 true false).1 ≠ dbC3 ∧
    (importItems dbC3 1 [recC3] true 5 true false).1
      ≠ (importItems dbC3 1 [recC3] true 5 true true).1 := by
  decide

/-- Claim C7: each record imported by `importItems` yields an item under
the fresh autoIncrement key — independent of any backup-origin id the
record carries, and distinct from every stored item id — paired with a
progress row adopting level and lastStudied when the record carries a
level, and level 0 / lastStudied 0 otherwise. -/
theorem importItems_record_progress (db : DB) (sid now : Nat) (r : ImportRecord) :
    (importItemsBatch db sid [r] now).items
      = db.items ++ [⟨db.nextItemId, sid, r.front, r.front_info.getD "",
          r.back, r.back_info.getD "", now⟩] ∧
    (∀ lv, r.level = some lv →
      (importItemsBatch db sid [r] now).progress
        = db.progress ++ [⟨db.nextItemId, lv, r.last_studied.getD 0⟩]) ∧
    (r.level = none →
      (importItemsBatch db sid [r] now).progress
        = db.progress ++ [⟨db.nextItemId, 0, 0⟩]) ∧
    (∀ j, importItemsBatch db sid [{ r with id := j }] now
      = importItemsBatch db sid [r] now) ∧
    (WF db → ∀ it ∈ db.items, it.id ≠ db.nextItemId) := by
  refine ⟨rfl, ?_, ?_, fun j => rfl, ?_⟩
  · intro lv hlv
    simp [importItemsBatch, addRecord, hlv]
  · intro h
    simp [importItemsBatch, addRecord, h]
  · intro hwf it hit
    exact Nat.ne_of_lt (hwf.2.1 it hit)

theorem getAll_addRecord (db : DB) (sid now : Nat) (r : ImportRecord)
    (h2 : ∀ it ∈ db.items, it.id < db.nextItemId)
    (h3 : ∀ p ∈ db.progress, p.item_id < db.nextItemId) :
    getAllItemsWithProgress (addRecord sid now db r) sid
      = getAllItemsWithProgress db sid ++ [mergedOfRecord db.nextItemId sid r] := by
  have hpid : (progressOfRecord db.nextItemId r).item_id = db.nextItemId := by
    cases hl : r.level <;> simp [progressOfRecord, hl]
  have hprog : (addRecord sid now db r).progress
      = db.progress ++ [progressOfRecord db.nextItemId r] := by
    cases hl : r.level <;> simp [addRecord, progressOfRecord, hl]
  have hitems : (addRecord sid now db r).items
      = db.items ++ [⟨db.nextItemId, sid, r.front, r.front_info.getD "",
          r.back, r.back_info.getD "", now⟩] := rfl
  simp only [getAllItemsWithProgress]
  rw [hprog, hitems, List.filter_append, List.map_append]
  congr 1
  · apply List.map_congr_left
    intro it hit
    have hmem : it ∈ db.items := (List.mem_filter.mp hit).1
    have hlt : it.id < db.nextItemId := h2 it hmem
    rw [List.find?_append]
    have hnew : [progressOfRecord db.nextItemId r].find?
        (fun p => p.item_id == it.id) = none := by
      simp [List.find?_singleton, hpid]
      omega
    rw [hnew]
    cases hf : db.progress.find? (fun p => p.item_id == it.id) <;> simp
  · have hfirst : db.progress.find? (fun p => p.item_id == db.nextItemId) = none := by
      rw [List.find?_eq_none]
      intro p hp
      have := h3 p hp
      simp
      omega
    simp only [List.filter_cons, List.filter_nil]
    simp only [beq_self_eq_true, if_true]
    simp only [List.map_cons, List.map_nil]
    rw [List.find?_append, hfirst]
    simp [List.find?_singleton, hpid, mergedOfRecord]

theorem importItemsBatch_subjects :
    ∀ (rs : List ImportRecord) (db : DB) (sid now : Nat),
      (importItemsBatch db sid rs now).subjects = db.subjects ∧
      (importItemsBatch db sid rs now).nextSubjectId = db.nextSubjectId := by
  intro rs
  induction rs with
  | nil => intro db sid now; exact ⟨rfl, rfl⟩
  | cons r rs ih => intro db sid now; exact ih (addRecord sid now db r) sid now

theorem getAll_importItemsBatch :
    ∀ (rs : List ImportRecord) (db : DB) (sid now : Nat),
      (∀ it ∈ db.items, it.id < db.nextItemId) →
      (∀ p ∈ db.progress, p.item_id < db.nextItemId) →
      getAllItemsWithProgress (importItemsBatch db sid rs now) sid
        = getAllItemsWithProgress db sid ++ mergedOfBatch db.nextItemId sid rs := by
  intro rs
  induction rs with
  | nil => intro db sid now h2 h3; simp [importItemsBatch, mergedOfBatch]
  | cons r rs ih =>
    intro db sid now h2 h3
    have hnext : (addRecord sid now db r).nextItemId = db.nextItemId + 1 := rfl
    have h2' : ∀ it ∈ (addRecord sid now db r).items,
        it.id < (addRecord sid now db r).nextItemId := by
      intro it hit
      rw [hnext]
      simp only [addRecord, List.mem_append, List.mem_singleton] at hit
      rcases hit with h | h
      · exact Nat.lt_succ_of_lt (h2 it h)
      · rw [h]
        exact Nat.lt_succ_self _
    have h3' : ∀ p ∈ (addRecord sid now db r).progress,
        p.item_id < (addRecord sid now db r).nextItemId := by
      intro p hp
      rw [hnext]
      have hprog : (addRecord sid now db r).progress
          = db.progress ++ [progressOfRecord db.nextItemId r] := by
        cases hl : r.level <;> simp [addRecord, progressOfRecord, hl]
      rw [hprog] at hp
      rw [List.mem_append, List.mem_singleton] at hp
      rcases hp with h | h
      · exact Nat.lt_succ_of_lt (h3 p h)
      · rw [h]
        have : (progressOfRecord db.nextItemId r).item_id = db.nextItemId := by
          cases hl : r.level <;> simp [progressOfRecord, hl]
        rw [this]
        exact Nat.lt_succ_self _
    show getAllItemsWithProgress
        (importItemsBatch (addRecord sid now db r) sid rs now) sid = _
    rw [ih (addRecord sid now db r) sid now h2' h3',
      getAll_addRecord db sid now r h2 h3, hnext]
    simp [mergedOfBatch]

theorem mergedOfBatch_proj :
    ∀ (ms : List Merged) (nid sid : Nat),
      (mergedOfBatch nid sid (ms.map mergedToRecord)).map
          (fun m => (m.front, m.back, m.level, m.last_studied))
        = ms.map (fun m => (m.front, m.back, m.level, m.last_studied)) := by
  intro ms
  induction ms with
  | nil => intro nid sid; rfl
  | cons m ms ih =>
    intro nid sid
    simp only [List.map_cons, mergedOfBatch, mergedOfRecord, mergedToRecord,
      progressOfRecord]
    rw [ih]
    rfl

/-- Claim C6: exporting a subject and importing the resulting document
creates a new subject (its id matches no pre-existing subject) named
`name + " (Imported)"`, and the merged view of the imported subject
preserves each exported item front, back, level and lastStudied. -/
theorem backup_roundtrip (db : DB) (subject : Subject) (ms : List Merged)
    (now : Nat) (hwf : WF db) :
    (∀ s ∈ db.subjects,
      s.id ≠ (importSubjectBackup db (exportSubjectBackup subject ms) now).2) ∧
    (∃ s ∈ (importSubjectBackup db (exportSubjectBackup subject ms) now).1.subjects,
      s.id = (importSubjectBackup db (exportSubjectBackup subject ms) now).2 ∧
      s.name = subject.name ++ " (Imported)") ∧
    (getAllItemsWithProgress
        (importSubjectBackup db (exportSubjectBackup subject ms) now).1
        (importSubjectBackup db (exportSubjectBackup subject ms) now).2).map
        (fun m => (m.front, m.back, m.level, m.last_studied))
      = ms.map (fun m => (m.front, m.back, m.level, m.last_studied)) := by
  have hsnd : (importSubjectBackup db (exportSubjectBackup subject ms) now).2
      = db.nextSubjectId := rfl
  have hfst : (importSubjectBackup db (exportSubjectBackup subject ms) now).1
      = importItemsBatch
          (clearItemsBySubject
            (createSubject db (subject.name ++ " (Imported)") subject.settings now).1
            db.nextSubjectId)
          db.nextSubjectId (ms.map mergedToRecord) now := rfl
  have hdb1 : (createSubject db (subject.name ++ " (Imported)") subject.settings now).1
      = { db with
            subjects := db.subjects ++
              [⟨db.nextSubjectId, subject.name ++ " (Imported)", subject.settings, now⟩],
            nextSubjectId := db.nextSubjectId + 1 } := rfl
  refine ⟨?_, ?_, ?_⟩
  · intro s hs
    rw [hsnd]
    exact Nat.ne_of_lt (hwf.1 s hs)
  · rw [hsnd, hfst]
    rw [(importItemsBatch_subjects (ms.map mergedToRecord) _ _ _).1]
    refine ⟨⟨db.nextSubjectId, subject.name ++ " (Imported)", subject.settings, now⟩,
      ?_, rfl, rfl⟩
    show _ ∈ (createSubject db (subject.name ++ " (Imported)") subject.settings now).1.subjects
    rw [hdb1]
    simp
  · rw [hsnd, hfst]
    have h2 : ∀ it ∈ (clearItemsBySubject
          (createSubject db (subject.name ++ " (Imported)") subject.settings now).1
          db.nextSubjectId).items,
        it.id < (clearItemsBySubject
          (createSubject db (subject.name ++ " (Imported)") subject.settings now).1
          db.nextSubjectId).nextItemId := by
      intro it hit
      simp only [clearItemsBySubject, List.mem_filter, hdb1] at hit ⊢
      exact hwf.2.1 it hit.1
    have h3 : ∀ p ∈ (clearItemsBySubject
          (createSubject db (subject.name ++ " (Imported)") subject.settings now).1
          db.nextSubjectId).progress,
        p.item_id < (clearItemsBySubject
          (createSubject db (subject.name ++ " (Imported)") subject.settings now).1
          db.nextSubjectId).nextItemId := by
      intro p hp
      simp only [clearItemsBySubject, List.mem_filter, hdb1] at hp ⊢
      exact hwf.2.2 p hp.1
    rw [getAll_importItemsBatch (ms.map mergedToRecord) _ db.nextSubjectId now h2 h3]
    have hempty : getAllItemsWithProgress
        (clearItemsBySubject
          (createSubject db (subject.name ++ " (Imported)") subject.settings now).1
          db.nextSubjectId)
        db.nextSubjectId = [] := by
      simp only [getAllItemsWithProgress]
      rw [clearItemsBySubject_empty]
      rfl
    rw [hempty, List.nil_append]
    exact mergedOfBatch_proj ms _ _

/-- Claim C4: a line yielding exactly 3 fields maps in legacy order
(front, back, frontInfo) with empty backInfo, while 4 or more fields map
the first four to (front, frontInfo, back, backInfo) and extras are
ignored. -/
theorem parseCSV_field_count_mapping (parts : List (List Char)) :
    (parts.length = 3 →
      mapParts parts
        = ⟨⟨parts.getD 0 []⟩, ⟨parts.getD 2 []⟩, ⟨parts.getD 1 []⟩, ""⟩) ∧
    (4 ≤ parts.length →
      mapParts parts
        = ⟨⟨parts.getD 0 []⟩, ⟨parts.getD 1 []⟩, ⟨parts.getD 2 []⟩,
            ⟨parts.getD 3 []⟩⟩) := by
  constructor
  · intro h
    simp only [mapParts]
    rw [if_neg (by omega), if_pos h]
  · intro h
    simp only [mapParts]
    rw [if_pos h]

/-- Witness for claim C4: a concrete 3-field list, plus a tab line and a
5-field comma line run through the full parser. -/
theorem parseCSV_field_count_mapping_w :
    mapParts [['x'], ['y'], ['z']] = ⟨"x", "z", "y", ""⟩ ∧
    parseCSV "x\ty\tz" = [⟨"x", "z", "y", ""⟩] ∧
    parseCSV "a,b,c,d,e" = [⟨"a", "b", "c", "d"⟩] := by
  refine ⟨?_, by decide, by decide⟩
  have h := (parseCSV_field_count_mapping [['x'], ['y'], ['z']]).1 (by decide)
  exact h.trans (by decide)

/-- Witness for claim C1 at a concrete two-subject store. -/
theorem deleteSubject_cascades_w :
    (⟨2, "B", ⟨"en-US", "ja-JP"⟩, 0⟩ : Subject).id ≠ 1 ∧
    (⟨20, 1, 5⟩ : ProgressRow).item_id ≠ 10 :=
  ⟨(deleteSubject_cascades dbC1 1).1 ⟨2, "B", ⟨"en-US", "ja-JP"⟩, 0⟩ (by decide),
    (deleteSubject_cascades dbC1 1).2.2 ⟨10, 1, "f", "", "b", "", 0⟩ (by decide)
      rfl ⟨20, 1, 5⟩ (by decide)⟩

/-- Witness for the amended claim C2 at concrete scheduler states. -/
theorem refreshPlaylist_cursor_w :
    ((refreshPlaylist stC2 [0] "id_asc" rand0).playlist = [] ∧
      (refreshPlaylist stC2 [0] "id_asc" rand0).currentIndex = stC2.currentIndex) ∧
    (refreshPlaylist stC2b [3] "id_asc" rand0).currentIndex = 0 :=
  ⟨(refreshPlaylist_cursor stC2 [0] "id_asc" rand0).1 (by decide),
    (refreshPlaylist_cursor stC2b [3] "id_asc" rand0).2 (by decide)⟩

/-- Witness for claim C6: one item (front A, back B, level 2,
lastStudied 100) survives the round trip unchanged. -/
theorem backup_roundtrip_w :
    (getAllItemsWithProgress
        (importSubjectBackup dbC6 (exportSubjectBackup subjC6 msC6) 7).1
        (importSubjectBackup dbC6 (exportSubjectBackup subjC6 msC6) 7).2).map
      (fun m => (m.front, m.back, m.level, m.last_studied))
      = [("A", "B", 2, 100)] :=
  ((backup_roundtrip dbC6 subjC6 msC6 7 (by decide)).2.2).trans (by decide)

/-- Witness for claim C7: a record carrying level 2, lastStudied 100 and a
backup-origin id 99, imported into a store whose next key is 4. -/
theorem importItems_record_progress_w :
    (importItemsBatch dbC7 1 [recC7] 7).progress
      = dbC7.progress ++ [⟨dbC7.nextItemId, 2, 100⟩] ∧
    (⟨3, 1, "x", "", "y", "", 0⟩ : Item).id ≠ dbC7.nextItemId := by
  constructor
  · have h := (importItems_record_progress dbC7 1 7 recC7).2.1 2 rfl
    exact h.trans (by decide)
  · exact (importItems_record_progress dbC7 1 7 recC7).2.2.2.2 (by decide)
      ⟨3, 1, "x", "", "y", "", 0⟩ (by decide)

/-- Witness for claim C8: an unknown id is a no-op resolving true, and a
matching id gets exactly its four text fields replaced. -/
theorem updateItem_semantics_w :
    updateItem dbC8 ⟨77, "F", "", "B", ""⟩ = (dbC8, true) ∧
    updateItem dbC8 ⟨5, "F2", "FI2", "B2", "BI2"⟩
      = ({ dbC8 with items := [⟨5, 1, "F2", "FI2", "B2", "BI2", 0⟩] }, true) := by
  constructor
  · exact (updateItem_semantics dbC8 ⟨77, "F", "", "B", ""⟩).1 (by decide)
  · have h := (updateItem_semantics dbC8 ⟨5, "F2", "FI2", "B2", "BI2"⟩).2
      (by decide) ⟨5, 1, "f", "fi", "b", "bi", 0⟩ (by decide) rfl
    exact h.trans (by decide)

/-- Witness for claim C10: deleting id 99 from a store holding only id 4
changes nothing and resolves true. -/
theorem deleteItem_missing_id_w :
    deleteItem dbC10 99 = (dbC10, true) ∧ (deleteItem dbC10 99).2 = true :=
  ⟨(deleteItem_missing_id dbC10 99).2 (by decide) (by decide),
    (deleteItem_missing_id dbC10 99).1⟩

/-- Witness for claim C9 at a concrete store and random supply. -/
theorem random_mode_permutation_w :
    ((nextOutputs rand0 (refreshPlaylist stC9 [0, 1, 2] "random" randC9)
        (stC9.items.filter (fun it => [0, 1, 2].contains it.level)).length).filterMap
      (fun o => Option.map Merged.id o)).count 1 = 1 ∧
    (refreshPlaylist stC9 [0, 1, 2] "random" randC9).playlist.map Merged.id
      = [1, 3, 2] :=
  ⟨((random_mode_permutation stC9 [0, 1, 2] randC9 rand0).2 (by decide)).2
      (by decide) 1 (by decide),
    by decide⟩
